import Mathlib

/-!
Verification of the power-profile matching and quiz-scoring code.

The Python dictionaries of scores and weights are modelled as association
lists over `ℚ` (the floats of the source are modelled exactly); `dict.get`
with a default becomes `dget`.  The square root forces the distance and
match-percent computations into `ℝ`.
-/

namespace KinkPowerQuiz

/-- A Python dict of string keys and numeric values, as an association list
(first binding of a key wins, as keys of a dict are unique). -/
abbrev Dict := List (String × ℚ)

/-- Python `d.get(k, v)`: the value bound to `k`, else the default `v`. -/
def dget : Dict → String → ℚ → ℚ
  | [], _, v => v
  | (k, x) :: d, key, v => if key = k then x else dget d key v

/-- The fixed ordered list of the six bases (`BASES` in matching.py). -/
def BASES : List String :=
  ["Legitimate", "Reward", "Coercive", "Referent", "Expert", "Informational"]

/-- The accumulation loop of `euclidean_match_percent`: running over `BASES`,
add `w * (u - p) ** 2` to `acc` and `w` to `wsum`, starting from `(0.0, 0.0)`,
with `w = weights.get(base, 1.0)`, `u = user_scores.get(base, 0)`,
`p = profile_scores.get(base, 0)`. -/
def accumulate (user_scores profile_scores weights : Dict) : ℚ × ℚ :=
  BASES.foldl
    (fun s base =>
      (s.1 + dget weights base 1 * (dget user_scores base 0 - dget profile_scores base 0) ^ 2,
       s.2 + dget weights base 1))
    (0, 0)

/-- `euclidean_match_percent(user_scores, profile_scores, weights=None)` from
matching.py: the weighted Euclidean distance `d = sqrt(acc)`, the normaliser
`dmax = 4.0 * sqrt(wsum) if wsum > 0 else 1.0`, and the pair
`(d, max(0.0, 1.0 - d / dmax) * 100.0)`. -/
noncomputable def euclidean_match_percent
    (user_scores profile_scores : Dict) (weights : Option Dict) : ℝ × ℝ :=
  let ws := weights.getD []
  let a := accumulate user_scores profile_scores ws
  let d : ℝ := Real.sqrt ((a.1 : ℝ))
  let dmax : ℝ := if 0 < a.2 then 4 * Real.sqrt ((a.2 : ℝ)) else 1
  (d, max 0 (1 - d / dmax) * 100)

/-- Python `round(m, 1)`: `m` rounded to one decimal place.  (Rounding of an
exact decimal midpoint is irrelevant below; no input exercises it.) -/
noncomputable def round1 (x : ℝ) : ℝ := ((round (10 * x) : ℤ) : ℝ) / 10

/-- A reference profile handed to `rank_profiles`: the dict
`{"id": ..., "name": ..., "scores": {...}}` (id and name read with `.get`,
hence optional). -/
structure RefProfile where
  id : Option String
  name : Option String
  scores : Dict

/-- An entry of the list `rank_profiles` returns:
`{"id": ..., "name": ..., "match_percent": round(m, 1)}`. -/
structure MatchResult where
  id : Option String
  name : Option String
  match_percent : ℝ

/-- The record built for one candidate inside the loop of `rank_profiles`. -/
noncomputable def toResult (user_scores : Dict) (weights : Option Dict)
    (p : RefProfile) : MatchResult :=
  { id := p.id, name := p.name,
    match_percent := round1 (euclidean_match_percent user_scores p.scores weights).2 }

/-- The sort order of `results.sort(key=lambda r: r["match_percent"], reverse=True)`:
`a` may come before `b` exactly when `b`'s key is not above `a`'s. -/
def byMatchDesc (a b : MatchResult) : Prop := b.match_percent ≤ a.match_percent

noncomputable instance : DecidableRel byMatchDesc :=
  fun _ _ => Real.decidableLE _ _

instance : IsTotal MatchResult byMatchDesc :=
  ⟨fun a b => le_total b.match_percent a.match_percent⟩

instance : IsTrans MatchResult byMatchDesc :=
  ⟨fun _ _ _ h1 h2 => le_trans h2 h1⟩

/-- Python's `l[:k]` for an integer `k` (negative `k` counts from the end,
the result clamped to the list). -/
def pySliceTo (l : List MatchResult) (k : ℤ) : List MatchResult :=
  l.take (if k < 0 then ((l.length : ℤ) + k).toNat else k.toNat)

/-- `rank_profiles(user_scores, profiles, weights=None, top_k=None)` from
matching.py: build the result records (match percent rounded to one decimal),
sort them descending by the stored `match_percent` (Python's stable sort,
modelled by the stable `insertionSort`), then
`return results[:top_k] if top_k else results` — the slice is skipped both
when `top_k` is `None` and when it equals `0`. -/
noncomputable def rank_profiles (user_scores : Dict) (profiles : List RefProfile)
    (weights : Option Dict) (top_k : Option ℤ) : List MatchResult :=
  let results := List.insertionSort byMatchDesc (profiles.map (toResult user_scores weights))
  match top_k with
  | none => results
  | some k => if k = 0 then results else pySliceTo results k

/-! The quiz application (kink_power_quiz.py): question banks and the
per-category scoring loop. -/

/-- `DOM_ITEMS` from kink_power_quiz.py: category → ordered statement list. -/
def DOM_ITEMS : List (String × List String) :=
  [("Legitimate",
    ["We have clearly defined roles (Dominant/submissive) that guide how we interact.",
     "Titles, rituals, or symbols (e.g., honorifics, collars) reinforce my authority.",
     "I use formal structure (protocols, rules, check-ins) to sustain the dynamic.",
     "Mutual agreement about my authority keeps the dynamic stable."]),
   ("Reward",
    ["I use praise, affection, or pleasure to reinforce good behavior.",
     "I grant privileges (e.g., attention, permissions, orgasms) as recognition.",
     "Positive reinforcement is typically more effective than punishment in our dynamic.",
     "I deliberately create moments of joy or pride as part of power exchange."]),
   ("Coercive",
    ["I use punishment or correction when boundaries or rules are broken.",
     "I may withhold pleasure or attention intentionally to guide behavior.",
     "Discipline scenes or consequences help maintain our structure.",
     "Correction is a form of care when applied fairly and consistently."]),
   ("Referent",
    ["My power comes primarily from emotional connection and trust.",
     "I invest in closeness before I claim authority.",
     "I want my partner to follow because they want to, not because they must.",
     "Our bond makes submission feel natural."]),
   ("Expert",
    ["My confidence comes from skill (e.g., rope, impact, hypnosis, safety).",
     "I study techniques and theory to improve my dominance.",
     "Competence shown through action makes me feel powerful.",
     "Authority in scenes is earned through expertise, not only title."]),
   ("Informational",
    ["I explain the ‘why’ behind what I do when appropriate.",
     "I use words and tone to shape the emotional experience of a scene.",
     "I help my partner understand the intent behind actions or rules.",
     "Debriefing strengthens trust and our dynamic."])]

/-- `SUB_ITEMS` from kink_power_quiz.py. -/
def SUB_ITEMS : List (String × List String) :=
  [("Legitimate",
    ["Our dynamic feels stronger when our roles are clearly defined.",
     "Titles, rituals, or symbols help me stay in the right mindset.",
     "I feel safer when my Dominant sets clear rules or protocols.",
     "When expectations are unclear, I feel ungrounded."]),
   ("Reward",
    ["Praise or affection from my Dominant motivates me more than punishment.",
     "I look forward to rewards (attention, touch, permission) as signs of approval.",
     "I feel proud when my Dominant recognizes my effort or obedience.",
     "Rewards help me understand how to please my Dominant."]),
   ("Coercive",
    ["I accept punishment or correction as part of my submission.",
     "Denial or discipline feels meaningful when done with care.",
     "Consequences remind me of the seriousness of our dynamic.",
     "I feel safer when consequences are consistent and fair."]),
   ("Referent",
    ["My willingness to obey comes mostly from trust and affection.",
     "I follow more easily when I feel emotionally connected.",
     "I care deeply about my Dominant’s opinion of me.",
     "When our bond is strong, rules and control feel natural."]),
   ("Expert",
    ["I feel safer when my Dominant shows skill and knowledge.",
     "Their competence helps me relax and surrender more deeply.",
     "I follow instructions more readily when they know their craft.",
     "Their focus on learning and safety strengthens my trust."]),
   ("Informational",
    ["I appreciate when my Dominant explains what’s happening or why.",
     "Understanding reasons helps me stay present and calm.",
     "Their words and tone shape how I experience the scene.",
     "Debriefing or talking after scenes helps me feel understood."])]

/-- The response-collection loop of kink_power_quiz.py: for each
`(base, qlist)` of the active item bank, `total` accumulates the slider value
of statement `i` (`enumerate(qlist, start=1)`), and
`scores[base] = total / len(qlist)`.  The slider values are abstracted as a
function `rating` of the base and the one-based statement index. -/
def scores (items : List (String × List String)) (rating : String → ℕ → ℚ) : Dict :=
  items.map fun bq =>
    (bq.1, (List.range bq.2.length).foldl (fun t i => t + rating bq.1 (i + 1)) 0 / bq.2.length)

/-- The canonical flattening of an item bank into (category, statement) pairs,
in category order then list order — the order in which kink_power_quiz.py
renders the statements. -/
def flatten_items (items : List (String × List String)) : List (String × String) :=
  items.flatMap fun bq => bq.2.map fun q => (bq.1, q)

/-- Modelled from the spec: the Ordering Service's `build_order` is not in the
source tree (only the canonical rendering loop is); per the spec it flattens
the role's bank in canonical base order and then applies a permutation, freshly
random or deterministic in a seed.  Both modes are modelled by passing the
permutation explicitly as `sigma`, the list of source positions in
presentation order. -/
def build_order (bank : List (String × List String))
    (sigma : List (Fin (flatten_items bank).length)) : List (String × String) :=
  sigma.map (flatten_items bank).get

/-! Spec-side formulas of section 4.4 (`euclidean_distance_and_match`),
written from the spec's words, to be compared with the source's
`euclidean_match_percent`. -/

/-- Spec: the effective weight of category `b` — the supplied weight,
defaulting to 1.0 when `weights` omits it or is absent entirely. -/
def weight_of_spec (weights : Option Dict) (b : String) : ℚ :=
  dget (weights.getD []) b 1

/-- Spec: `distance = sqrt( Σ weight_b * (user_b − reference_b)^2 )` over the
six categories, a missing category read as 0. -/
noncomputable def distance_of_spec (user reference : Dict) (weights : Option Dict) : ℝ :=
  Real.sqrt
    (((BASES.map fun b => weight_of_spec weights b * (dget user b 0 - dget reference b 0) ^ 2).sum : ℚ))

/-- Spec: `max_distance = 4.0 * sqrt(Σ weight_b)` if the weight sum is
positive, else `1.0`. -/
noncomputable def max_distance_of_spec (weights : Option Dict) : ℝ :=
  if 0 < (BASES.map (weight_of_spec weights)).sum then
    4 * Real.sqrt (((BASES.map (weight_of_spec weights)).sum : ℚ))
  else 1

/-- Spec: `match_percent = max(0, 1 − distance / max_distance) * 100`. -/
noncomputable def match_percent_of_spec (user reference : Dict) (weights : Option Dict) : ℝ :=
  max 0 (1 - distance_of_spec user reference weights / max_distance_of_spec weights) * 100

/-! ### Helper lemmas -/

theorem foldl_pair_sum (f g : String → ℚ) (L : List String) :
    ∀ c : ℚ × ℚ,
      L.foldl (fun s b => (s.1 + f b, s.2 + g b)) c =
        (c.1 + (L.map f).sum, c.2 + (L.map g).sum) := by
  induction L with
  | nil => intro c; simp
  | cons b L ih =>
      intro c
      simp only [List.foldl_cons, List.map_cons, List.sum_cons, ih, Prod.mk.injEq]
      exact ⟨by ring, by ring⟩

/-- The accumulation loop, rewritten as the two sums over `BASES`. -/
theorem accumulate_eq (u p w : Dict) :
    accumulate u p w =
      ((BASES.map fun b => dget w b 1 * (dget u b 0 - dget p b 0) ^ 2).sum,
       (BASES.map fun b => dget w b 1).sum) := by
  unfold accumulate
  rw [foldl_pair_sum]
  simp

theorem dget_not_mem {d : Dict} {b : String} (h : b ∉ d.map Prod.fst) (v : ℚ) :
    dget d b v = v := by
  induction d with
  | nil => rfl
  | cons kv d ih =>
      obtain ⟨k, x⟩ := kv
      simp only [List.map_cons, List.mem_cons, not_or] at h
      simp [dget, h.1, ih h.2]

theorem dget_cons (k : String) (x : ℚ) (d : Dict) (key : String) (v : ℚ) :
    dget ((k, x) :: d) key v = if key = k then x else dget d key v := rfl

/-- The match computation reads its inputs only through `dget` at the six
bases: agreement there forces equal results. -/
theorem euclidean_match_percent_congr {u1 u2 p1 p2 : Dict} {w1 w2 : Option Dict}
    (hu : ∀ b ∈ BASES, dget u1 b 0 = dget u2 b 0)
    (hp : ∀ b ∈ BASES, dget p1 b 0 = dget p2 b 0)
    (hw : ∀ b ∈ BASES, dget (w1.getD []) b 1 = dget (w2.getD []) b 1) :
    euclidean_match_percent u1 p1 w1 = euclidean_match_percent u2 p2 w2 := by
  have hacc : accumulate u1 p1 (w1.getD []) = accumulate u2 p2 (w2.getD []) := by
    rw [accumulate_eq, accumulate_eq]
    refine congrArg₂ Prod.mk (congrArg List.sum ?_) (congrArg List.sum ?_)
    · exact List.map_congr_left fun b hb => by rw [hu b hb, hp b hb, hw b hb]
    · exact List.map_congr_left fun b hb => hw b hb
  simp only [euclidean_match_percent]
  rw [hacc]

/-! ### Claims -/

/-- C3: for every pair of profiles and every non-negative weight mapping,
`euclidean_match_percent` returns the distance and match percent given by the
spec's formulas: `distance = sqrt(Σ weight_b * (user_b - reference_b)^2)`
with weights defaulting to 1.0 and missing scores to 0, and
`match_percent = max(0, 1 - distance / max_distance) * 100` with
`max_distance = 4.0 * sqrt(Σ weight_b)` when the weight sum is positive and
`1.0` otherwise. -/
theorem c3_distance_and_match_formula (user reference : Dict) (weights : Option Dict)
    (_hw : ∀ kv ∈ weights.getD [], (0 : ℚ) ≤ kv.2) :
    euclidean_match_percent user reference weights =
      (distance_of_spec user reference weights,
       match_percent_of_spec user reference weights) := by
  simp only [euclidean_match_percent, distance_of_spec, match_percent_of_spec,
    max_distance_of_spec, weight_of_spec, accumulate_eq]
  rfl

theorem c3_distance_and_match_formula_witness :
    euclidean_match_percent [("Legitimate", 5)] [("Legitimate", 3)] (some [("Reward", 2)]) =
      (distance_of_spec [("Legitimate", 5)] [("Legitimate", 3)] (some [("Reward", 2)]),
       match_percent_of_spec [("Legitimate", 5)] [("Legitimate", 3)] (some [("Reward", 2)])) :=
  c3_distance_and_match_formula _ _ _
    (by rintro kv hkv; rw [List.mem_singleton.mp hkv]; norm_num)

/-- C4: for every pair of profiles and every non-negative weight mapping, the
match percent returned by `euclidean_match_percent` lies in `[0, 100]`. -/
theorem c4_match_percent_bounded (user reference : Dict) (weights : Option Dict)
    (_hw : ∀ kv ∈ weights.getD [], (0 : ℚ) ≤ kv.2) :
    0 ≤ (euclidean_match_percent user reference weights).2 ∧
      (euclidean_match_percent user reference weights).2 ≤ 100 := by
  simp only [euclidean_match_percent]
  set a := accumulate user reference (weights.getD []) with ha
  set d : ℝ := Real.sqrt ((a.1 : ℝ)) with hd
  set dmax : ℝ := if 0 < a.2 then 4 * Real.sqrt ((a.2 : ℝ)) else 1 with hdmax
  have hd0 : 0 ≤ d := Real.sqrt_nonneg _
  have hdmax0 : 0 < dmax := by
    rw [hdmax]
    split
    · have hpos : (0 : ℝ) < (a.2 : ℝ) := by exact_mod_cast (by assumption : (0 : ℚ) < a.2)
      positivity
    · norm_num
  constructor
  · have : (0 : ℝ) ≤ max 0 (1 - d / dmax) := le_max_left _ _
    nlinarith
  · have h1 : max 0 (1 - d / dmax) ≤ 1 := by
      have : 0 ≤ d / dmax := div_nonneg hd0 hdmax0.le
      have : 1 - d / dmax ≤ 1 := by linarith
      simp [this]
    nlinarith [le_max_left (0 : ℝ) (1 - d / dmax)]

theorem c4_match_percent_bounded_witness :
    0 ≤ (euclidean_match_percent [("Reward", 5)] [] none).2 ∧
      (euclidean_match_percent [("Reward", 5)] [] none).2 ≤ 100 :=
  c4_match_percent_bounded _ _ _ (by simp)

/-- C5: for every profile `P` and every non-negative weight mapping with a
positive weight sum, `euclidean_match_percent P P` returns distance exactly 0
and match percent exactly 100. -/
theorem c5_identical_profiles (P : Dict) (weights : Option Dict)
    (_hw : ∀ kv ∈ weights.getD [], (0 : ℚ) ≤ kv.2)
    (hpos : 0 < (BASES.map fun b => dget (weights.getD []) b 1).sum) :
    euclidean_match_percent P P weights = (0, 100) := by
  simp only [euclidean_match_percent, accumulate_eq]
  have hacc : (BASES.map fun b => dget (weights.getD []) b 1 * (dget P b 0 - dget P b 0) ^ 2).sum
      = (0 : ℚ) := by
    rw [List.map_congr_left (g := fun _ => (0 : ℚ)) fun b _ => by ring]
    simp
  rw [hacc]
  simp only [hpos, if_pos]
  norm_num

theorem c5_identical_profiles_witness :
    euclidean_match_percent [("Expert", 4)] [("Expert", 4)] none = (0, 100) :=
  c5_identical_profiles _ _ (by simp) (by norm_num [BASES, dget])

/-- C6: for every category `b` of the fixed six, every counterpart profile,
and every weight mapping, a profile binding `b` to an explicit 0 gives exactly
the same (distance, match percent) pair as the same profile with `b` omitted
entirely, on whichever side of the comparison it appears. -/
theorem c6_missing_category_zero (b : String) (_hb : b ∈ BASES) (d other : Dict)
    (weights : Option Dict) (hd : b ∉ d.map Prod.fst) :
    euclidean_match_percent ((b, 0) :: d) other weights =
        euclidean_match_percent d other weights ∧
      euclidean_match_percent other ((b, 0) :: d) weights =
        euclidean_match_percent other d weights := by
  have hpoint : ∀ k ∈ BASES, dget ((b, 0) :: d) k 0 = dget d k 0 := by
    intro k _
    rw [dget_cons]
    by_cases hk : k = b
    · subst hk
      simp [dget_not_mem hd]
    · simp [hk]
  constructor
  · exact euclidean_match_percent_congr hpoint (fun _ _ => rfl) (fun _ _ => rfl)
  · exact euclidean_match_percent_congr (fun _ _ => rfl) hpoint (fun _ _ => rfl)

theorem c6_missing_category_zero_witness :
    euclidean_match_percent [("Expert", 0), ("Reward", 2)] [("Legitimate", 5)] none =
        euclidean_match_percent [("Reward", 2)] [("Legitimate", 5)] none ∧
      euclidean_match_percent [("Legitimate", 5)] [("Expert", 0), ("Reward", 2)] none =
        euclidean_match_percent [("Legitimate", 5)] [("Reward", 2)] none :=
  c6_missing_category_zero "Expert" (by decide) [("Reward", 2)] _ none (by decide)

/-- C10: the result of `euclidean_match_percent` depends only on the values
the two profiles and the weight mapping assign to the six fixed categories:
two invocations agreeing there return identical pairs, whatever other keys the
dicts carry. -/
theorem c10_depends_only_on_bases (u1 u2 p1 p2 : Dict) (w1 w2 : Option Dict)
    (hu : ∀ b ∈ BASES, dget u1 b 0 = dget u2 b 0)
    (hp : ∀ b ∈ BASES, dget p1 b 0 = dget p2 b 0)
    (hw : ∀ b ∈ BASES, dget (w1.getD []) b 1 = dget (w2.getD []) b 1) :
    euclidean_match_percent u1 p1 w1 = euclidean_match_percent u2 p2 w2 :=
  euclidean_match_percent_congr hu hp hw

theorem c10_depends_only_on_bases_witness :
    euclidean_match_percent [("Pressure", 7), ("Reward", 2)] [("Foo", 1)]
        (some [("Bar", 9)]) =
      euclidean_match_percent [("Reward", 2)] [] none :=
  c10_depends_only_on_bases _ _ _ _ _ _ (by decide) (by decide) (by decide)

/-- Spec: the arithmetic mean of a list of ratings. -/
def mean (l : List ℚ) : ℚ := l.sum / l.length

theorem foldl_add_sum (f : ℕ → ℚ) (L : List ℕ) :
    ∀ c : ℚ, L.foldl (fun t i => t + f i) c = c + (L.map f).sum := by
  induction L with
  | nil => intro c; simp
  | cons i L ih =>
      intro c
      simp only [List.foldl_cons, List.map_cons, List.sum_cons, ih]
      ring

/-- C8: the scoring step computes, for every category of the active role, the
arithmetic mean of that category's statement ratings, and when every rating
holds its default value 3, every category score equals exactly 3. -/
theorem c8_category_mean (items : List (String × List String)) (rating : String → ℕ → ℚ)
    (h : items = DOM_ITEMS ∨ items = SUB_ITEMS) :
    scores items rating =
        (items.map fun bq =>
          (bq.1, mean ((List.range bq.2.length).map fun i => rating bq.1 (i + 1)))) ∧
      ((∀ b i, rating b i = 3) → ∀ p ∈ scores items rating, p.2 = 3) := by
  have hne : ∀ bq ∈ items, bq.2.length ≠ 0 := by
    rcases h with rfl | rfl <;> decide
  constructor
  · refine List.map_congr_left fun bq _ => ?_
    simp only [mean, foldl_add_sum, List.length_map, List.length_range, zero_add]
  · intro h3 p hp
    simp only [scores, List.mem_map] at hp
    obtain ⟨bq, hbq, rfl⟩ := hp
    have hsum : (List.range bq.2.length).foldl (fun t i => t + rating bq.1 (i + 1)) 0 =
        (bq.2.length : ℚ) * 3 := by
      rw [foldl_add_sum, zero_add,
        List.map_congr_left (g := fun _ => (3 : ℚ)) fun i _ => h3 bq.1 (i + 1)]
      simp [List.map_const', mul_comm]
    have hlen : ((bq.2.length : ℚ)) ≠ 0 := by
      exact_mod_cast hne bq hbq
    simp only [hsum]
    field_simp

theorem c8_category_mean_witness :
    (scores DOM_ITEMS (fun _ _ => 3) =
        (DOM_ITEMS.map fun bq =>
          (bq.1, mean ((List.range bq.2.length).map fun _ => (3 : ℚ))))) ∧
      ((∀ (_b : String) (_i : ℕ), (3 : ℚ) = 3) →
        ∀ p ∈ scores DOM_ITEMS (fun _ _ => 3), p.2 = 3) :=
  c8_category_mean DOM_ITEMS (fun _ _ => 3) (Or.inl rfl)

/-- C9: for every role's question bank, the presentation order is a sequence
of (category, statement) pairs whose multiset equals exactly the flattened
input multiset — every statement appears exactly once, no duplication, no
loss — whichever permutation (random or seeded) is applied. -/
theorem c9_presentation_order_multiset (bank : List (String × List String))
    (sigma : List (Fin (flatten_items bank).length))
    (hsigma : sigma.Perm (List.finRange (flatten_items bank).length)) :
    (build_order bank sigma : Multiset (String × String)) =
      (flatten_items bank : Multiset (String × String)) := by
  refine Multiset.coe_eq_coe.mpr ?_
  have h1 : (sigma.map (flatten_items bank).get).Perm
      ((List.finRange (flatten_items bank).length).map (flatten_items bank).get) :=
    hsigma.map _
  rw [List.finRange_map_get] at h1
  exact h1

theorem c9_presentation_order_multiset_witness :
    (build_order DOM_ITEMS (List.finRange (flatten_items DOM_ITEMS).length).reverse :
        Multiset (String × String)) =
      (flatten_items DOM_ITEMS : Multiset (String × String)) :=
  c9_presentation_order_multiset DOM_ITEMS _ (List.reverse_perm _)

theorem single_sublist_append {α : Type _} (l2 l3 : List α) (b : α) :
    List.Sublist [b] (l2 ++ b :: l3) := by
  induction l2 with
  | nil => exact (List.nil_sublist l3).cons₂ b
  | cons x l2 ih => exact ih.cons x

theorem pair_sublist_decomp {α : Type _} (l1 l2 l3 : List α) (a b : α) :
    List.Sublist [a, b] (l1 ++ a :: (l2 ++ b :: l3)) := by
  induction l1 with
  | nil => exact (single_sublist_append l2 l3 b).cons₂ a
  | cons x l1 ih => exact ih.cons x

/-- C7: `rank_profiles` returns its results sorted in descending order of
`match_percent`, and for any two candidates whose computed match percents are
equal, the records of the earlier and the later input candidate appear in
input order in the output (the sort is stable). -/
theorem c7_sorted_and_stable (u : Dict) (ps : List RefProfile) (w : Option Dict) :
    (rank_profiles u ps w none).Pairwise byMatchDesc ∧
      ∀ (l1 l2 l3 : List RefProfile) (a b : RefProfile),
        ps = l1 ++ a :: (l2 ++ b :: l3) →
        (euclidean_match_percent u a.scores w).2 =
          (euclidean_match_percent u b.scores w).2 →
        List.Sublist [toResult u w a, toResult u w b] (rank_profiles u ps w none) := by
  constructor
  · exact List.sorted_insertionSort byMatchDesc _
  · intro l1 l2 l3 a b hps heq
    have hr : byMatchDesc (toResult u w a) (toResult u w b) := by
      show (toResult u w b).match_percent ≤ (toResult u w a).match_percent
      simp only [toResult]
      rw [heq]
    have hsub : List.Sublist [toResult u w a, toResult u w b] (ps.map (toResult u w)) := by
      rw [hps]
      simp only [List.map_append, List.map_cons]
      exact pair_sublist_decomp _ _ _ _ _
    show List.Sublist _ (List.insertionSort byMatchDesc (ps.map (toResult u w)))
    exact List.sublist_insertionSort (List.pairwise_pair.mpr hr) hsub

theorem c7_sorted_and_stable_witness :
    (rank_profiles [] [⟨some "a", some "A", []⟩, ⟨some "b", some "B", []⟩]
        none none).Pairwise byMatchDesc ∧
      List.Sublist
        [toResult [] none ⟨some "a", some "A", []⟩,
          toResult [] none ⟨some "b", some "B", []⟩]
        (rank_profiles [] [⟨some "a", some "A", []⟩, ⟨some "b", some "B", []⟩] none none) :=
  ⟨(c7_sorted_and_stable [] [⟨some "a", some "A", []⟩, ⟨some "b", some "B", []⟩] none).1,
   (c7_sorted_and_stable [] [⟨some "a", some "A", []⟩, ⟨some "b", some "B", []⟩] none).2
     [] [] [] ⟨some "a", some "A", []⟩ ⟨some "b", some "B", []⟩ rfl rfl⟩

/-- Evaluation of the match computation when the accumulated squared distance
and weight sum are perfect squares of explicit rationals. -/
theorem emp_eval_sq (u p : Dict) (w : Option Dict) (a b : ℚ) (ha : 0 ≤ a) (hb : 0 < b)
    (hle : a ≤ 4 * b) (hacc : accumulate u p (w.getD []) = (a ^ 2, b ^ 2)) :
    euclidean_match_percent u p w = (((a : ℝ)), (((1 - a / (4 * b)) * 100 : ℚ) : ℝ)) := by
  simp only [euclidean_match_percent, hacc]
  have hb2 : (0 : ℚ) < b ^ 2 := by positivity
  rw [if_pos hb2]
  have h1 : Real.sqrt (((a ^ 2 : ℚ) : ℝ)) = (a : ℝ) := by
    push_cast
    exact Real.sqrt_sq (by exact_mod_cast ha)
  have h2 : Real.sqrt (((b ^ 2 : ℚ) : ℝ)) = (b : ℝ) := by
    push_cast
    exact Real.sqrt_sq (by exact_mod_cast hb.le)
  rw [h1, h2]
  have hb' : (0 : ℝ) < (b : ℝ) := by exact_mod_cast hb
  have hmax : max (0 : ℝ) (1 - (a : ℝ) / (4 * (b : ℝ))) = 1 - (a : ℝ) / (4 * (b : ℝ)) := by
    apply max_eq_right
    rw [sub_nonneg, div_le_one (by positivity)]
    exact_mod_cast hle
  rw [hmax]
  simp only [Prod.mk.injEq, true_and]
  push_cast
  ring

/-- Evaluation of the match computation at zero distance and positive
weight sum. -/
theorem emp_eval_zero (u p : Dict) (w : Option Dict) (s : ℚ) (hs : 0 < s)
    (hacc : accumulate u p (w.getD []) = (0, s)) :
    euclidean_match_percent u p w = (0, 100) := by
  simp only [euclidean_match_percent, hacc]
  rw [if_pos hs]
  norm_num

/-- Evaluation of Python's one-decimal rounding at a rational point. -/
theorem round1_eval (q : ℚ) (n : ℤ) (h : round (10 * q) = n) :
    round1 ((q : ℝ)) = ((n : ℝ)) / 10 := by
  unfold round1
  have h10 : (10 : ℝ) * (q : ℝ) = ((10 * q : ℚ) : ℝ) := by push_cast; ring
  rw [h10, Rat.round_cast, h]

/-- C2 (amended): the ordering of `rank_profiles` output is determined by the
rounded one-decimal match percents stored in the records — rounding happens
before sorting and the rounded value is the sort key — so the output is
pairwise descending in the stored rounded value, and any two candidates whose
stored rounded values are equal (in particular, candidates whose full-precision
percents differ but round to the same one-decimal value) keep their input
order. -/
theorem c2_rounded_key_orders_output (u : Dict) (ps : List RefProfile)
    (w : Option Dict) (k : Option ℤ) :
    (rank_profiles u ps w k).Pairwise byMatchDesc ∧
      ∀ (l1 l2 l3 : List RefProfile) (a b : RefProfile),
        ps = l1 ++ a :: (l2 ++ b :: l3) →
        (toResult u w a).match_percent = (toResult u w b).match_percent →
        List.Sublist [toResult u w a, toResult u w b] (rank_profiles u ps w none) := by
  have hs : (List.insertionSort byMatchDesc (ps.map (toResult u w))).Pairwise byMatchDesc :=
    List.sorted_insertionSort byMatchDesc _
  constructor
  · cases k with
    | none => exact hs
    | some k =>
        simp only [rank_profiles]
        split
        · exact hs
        · exact hs.sublist (List.take_sublist _ _)
  · intro l1 l2 l3 a b hps heq
    have hr : byMatchDesc (toResult u w a) (toResult u w b) := le_of_eq heq.symm
    have hsub : List.Sublist [toResult u w a, toResult u w b] (ps.map (toResult u w)) := by
      rw [hps]
      simp only [List.map_append, List.map_cons]
      exact pair_sublist_decomp _ _ _ _ _
    show List.Sublist _ (List.insertionSort byMatchDesc (ps.map (toResult u w)))
    exact List.sublist_insertionSort (List.pairwise_pair.mpr hr) hsub

theorem c2_rounded_key_orders_output_witness :
    (rank_profiles [] [⟨some "x", some "X", []⟩, ⟨some "y", some "Y", []⟩]
        none (some 1)).Pairwise byMatchDesc ∧
      List.Sublist
        [toResult [] none ⟨some "x", some "X", []⟩,
          toResult [] none ⟨some "y", some "Y", []⟩]
        (rank_profiles [] [⟨some "x", some "X", []⟩, ⟨some "y", some "Y", []⟩] none none) :=
  ⟨(c2_rounded_key_orders_output []
      [⟨some "x", some "X", []⟩, ⟨some "y", some "Y", []⟩] none (some 1)).1,
   (c2_rounded_key_orders_output []
      [⟨some "x", some "X", []⟩, ⟨some "y", some "Y", []⟩] none (some 1)).2
     [] [] [] ⟨some "x", some "X", []⟩ ⟨some "y", some "Y", []⟩ rfl rfl⟩

/-- The user profile of the C2 counterexample. -/
def c2User : Dict := [("Legitimate", 5)]

/-- The weights of the C2 counterexample (non-negative, sum 4). -/
def c2Weights : Dict :=
  [("Legitimate", 1), ("Reward", 1), ("Coercive", 1), ("Referent", 1),
   ("Expert", 0), ("Informational", 0)]

/-- Candidate A of the C2 counterexample: full-precision match 62.525. -/
def c2A : RefProfile := ⟨some "a", some "A", [("Legitimate", 1001 / 500)]⟩

/-- Candidate B of the C2 counterexample: full-precision match 62.5. -/
def c2B : RefProfile := ⟨some "b", some "B", [("Legitimate", 2)]⟩

/-- C2 (counterexample): candidate A's full-precision match percent (62.525)
strictly exceeds B's (62.5), yet with input order [B, A] the code returns B
first — both round to 62.5 and the sort key is the rounded value, so the claim
that the larger full-precision value always precedes is false. -/
theorem c2_counterexample :
    (euclidean_match_percent c2User c2A.scores (some c2Weights)).2 >
        (euclidean_match_percent c2User c2B.scores (some c2Weights)).2 ∧
      (rank_profiles c2User [c2B, c2A] (some c2Weights) none).map MatchResult.name =
        [some "B", some "A"] := by
  have hA : euclidean_match_percent c2User c2A.scores (some c2Weights) =
      (((1499 / 500 : ℚ) : ℝ), (((1 - (1499 / 500) / (4 * 2)) * 100 : ℚ) : ℝ)) :=
    emp_eval_sq _ _ _ (1499 / 500) 2 (by norm_num) (by norm_num) (by norm_num)
      (by simp +decide [c2User, c2A, c2Weights, Option.getD, accumulate_eq, BASES, dget]
          norm_num)
  have hB : euclidean_match_percent c2User c2B.scores (some c2Weights) =
      (((3 : ℚ) : ℝ), (((1 - 3 / (4 * 2)) * 100 : ℚ) : ℝ)) :=
    emp_eval_sq _ _ _ 3 2 (by norm_num) (by norm_num) (by norm_num)
      (by simp +decide [c2User, c2B, c2Weights, Option.getD, accumulate_eq, BASES, dget]
          norm_num)
  have hA2 : (euclidean_match_percent c2User c2A.scores (some c2Weights)).2 =
      ((2501 / 40 : ℚ) : ℝ) := by rw [hA]; norm_num
  have hB2 : (euclidean_match_percent c2User c2B.scores (some c2Weights)).2 =
      ((125 / 2 : ℚ) : ℝ) := by rw [hB]; norm_num
  have hroundA : round ((10 : ℚ) * (2501 / 40)) = (625 : ℤ) := by
    rw [round_eq]
    rw [show (10 : ℚ) * (2501 / 40) + 1 / 2 = 2503 / 4 by norm_num]
    rw [Int.floor_eq_iff]
    norm_num
  have hroundB : round ((10 : ℚ) * (125 / 2)) = (625 : ℤ) := by
    rw [round_eq]
    rw [show (10 : ℚ) * (125 / 2) + 1 / 2 = 1251 / 2 by norm_num]
    rw [Int.floor_eq_iff]
    norm_num
  have hmpA : (toResult c2User (some c2Weights) c2A).match_percent = ((625 : ℝ)) / 10 := by
    simp only [toResult, hA2]
    exact round1_eval _ _ hroundA
  have hmpB : (toResult c2User (some c2Weights) c2B).match_percent = ((625 : ℝ)) / 10 := by
    simp only [toResult, hB2]
    exact round1_eval _ _ hroundB
  have hcond : byMatchDesc (toResult c2User (some c2Weights) c2B)
      (toResult c2User (some c2Weights) c2A) := by
    show (toResult c2User (some c2Weights) c2A).match_percent ≤
      (toResult c2User (some c2Weights) c2B).match_percent
    rw [hmpA, hmpB]
  have hrank : rank_profiles c2User [c2B, c2A] (some c2Weights) none =
      [toResult c2User (some c2Weights) c2B, toResult c2User (some c2Weights) c2A] := by
    show List.insertionSort byMatchDesc _ = _
    simp only [List.map_cons, List.map_nil, List.insertionSort, List.orderedInsert_nil]
    rw [List.orderedInsert, if_pos hcond]
  constructor
  · rw [hA2, hB2]
    have : (125 / 2 : ℚ) < 2501 / 40 := by norm_num
    exact_mod_cast this
  · rw [hrank]
    simp [toResult, c2A, c2B]

/-- C1 (the code at the failing input): `rank_profiles` called with
`top_k = 0` on a one-candidate list returns that candidate rather than the
empty sequence — `results[:top_k] if top_k else results` treats 0 like None
because 0 is falsy. -/
theorem c1_top_k_zero_returns_all :
    rank_profiles [] [⟨none, some "P", []⟩] none (some 0) =
      [⟨none, some "P", ((100 : ℝ))⟩] := by
  have hmp : euclidean_match_percent [] [] none = (0, 100) :=
    emp_eval_zero [] [] none 6 (by norm_num)
      (by simp +decide [Option.getD, accumulate_eq, BASES, dget]
          norm_num)
  have hround : round ((10 : ℚ) * 100) = (1000 : ℤ) := by
    rw [round_eq]
    rw [show (10 : ℚ) * 100 + 1 / 2 = 2001 / 2 by norm_num]
    rw [Int.floor_eq_iff]
    norm_num
  have hres : toResult [] none ⟨none, some "P", []⟩ = ⟨none, some "P", ((100 : ℝ))⟩ := by
    simp only [toResult, hmp]
    have h100 : ((100 : ℝ)) = (((100 : ℚ) : ℝ)) := by norm_num
    rw [h100, round1_eval _ _ hround]
    norm_num
  show List.insertionSort byMatchDesc _ = _
  simp only [List.map_cons, List.map_nil, List.insertionSort, List.orderedInsert_nil, hres]

end KinkPowerQuiz
